import Mathlib

/-!
Verification of the RustFinger WebFinger service (src/config.rs, src/main.rs).

Strings are modelled as lists of characters (`Str`); Rust `HashMap`s are
modelled as association lists in iteration order, with `mapInsert`
replacing any existing binding for the key (the overwrite semantics of
`HashMap::insert`); fallible Rust functions returning `Result` are
modelled with `Except`.  The third-party predicates used by the source -
the email regular expression of `normalize_subject` and
`url::Url::parse(..).is_ok()` - are embedded as executable boolean
functions (`email_regex_match`, `url_parse_ok`); see their doc comments.
-/

namespace RustFinger

/-- Strings of the Rust source, modelled as lists of characters. -/
abbrev Str := List Char

/-- Coerce a Lean string literal into the model's string type. -/
def str (s : String) : Str := s.toList

/-- Characters of the regex class for the local part of an email,
that is letters, digits and the symbols period, underscore, percent,
plus and hyphen. -/
def isLocalChar (c : Char) : Bool :=
  c.isAlphanum || c = '.' || c = '_' || c = '%' || c = '+' || c = '-'

/-- Characters of the regex class for the domain part of an email,
that is letters, digits, period and hyphen. -/
def isDomainChar (c : Char) : Bool :=
  c.isAlphanum || c = '.' || c = '-'

/-- Rust's `str::split(sep)` on character lists: splitting the empty
string gives one empty piece, and every separator occurrence starts a
new piece. -/
def splitOnChar (sep : Char) : Str → List Str
  | [] => [[]]
  | c :: cs =>
    if c = sep then [] :: splitOnChar sep cs
    else
      match splitOnChar sep cs with
      | [] => [[c]]
      | t :: ts => (c :: t) :: ts

/-- Whether `d` matches the domain part of the anchored email regex of
config.rs line 146, that is the subpattern with the domain-class run,
a literal period and a final run of at least two letters.  Since the
final run contains no period, the matched period is the last one of
`d`: everything after it must be two or more letters and everything
before it must be a nonempty run of domain-class characters. -/
def domainPartMatch (d : Str) : Bool :=
  let t := (d.reverse.takeWhile (fun c => decide (c ≠ '.'))).reverse
  let m := d.take (d.length - (t.length + 1))
  decide ('.' ∈ d) && !m.isEmpty && m.all isDomainChar &&
    decide (2 ≤ t.length) && t.all Char.isAlpha

/-- The anchored email regex of config.rs line 146: a nonempty run of
local-class characters, one at-sign, and a domain part as in
`domainPartMatch`.  The at-sign belongs to neither character class, so
a match contains exactly one at-sign. -/
def email_regex_match (s : Str) : Bool :=
  match splitOnChar '@' s with
  | [l, d] => !l.isEmpty && l.all isLocalChar && domainPartMatch d
  | _ => false

/-- Characters allowed after the first one in a URL scheme. -/
def isSchemeChar (c : Char) : Bool :=
  c.isAlphanum || c = '+' || c = '-' || c = '.'

/-- The WHATWG special schemes that require a nonempty host
(the file scheme also is special but allows an empty host, so it is
treated with the default branch). -/
def specialScheme (s : Str) : Bool :=
  let l := s.map Char.toLower
  decide (l = str "http") || decide (l = str "https") || decide (l = str "ws") ||
    decide (l = str "wss") || decide (l = str "ftp")

/-- After the colon of a special-scheme URL, the host read by skipping
leading slashes and stopping at a slash, question mark or hash must be
nonempty. -/
def hostNonempty (after : Str) : Bool :=
  let rest := after.dropWhile (fun c => decide (c = '/'))
  let host := rest.takeWhile
    (fun c => decide (c ≠ '/') && decide (c ≠ '?') && decide (c ≠ '#'))
  !host.isEmpty

/-- Model of `url::Url::parse(s).is_ok()` (the url crate, WHATWG URL
standard), as used by config.rs lines 149 and 169: the string must
consist of a scheme - a letter followed by letters, digits, plus,
hyphen or period - then a colon and a remainder; a special scheme
(http, https, ws, wss, ftp, case-insensitively) further requires a
nonempty host, while any remainder is accepted for other schemes,
whose path is opaque.  Leading-whitespace trimming and percent-encoding
details of the crate are not modelled; no input used in this
development depends on them. -/
def url_parse_ok (s : Str) : Bool :=
  let scheme := s.takeWhile (fun c => decide (c ≠ ':'))
  if scheme.length < s.length then
    match scheme with
    | [] => false
    | c0 :: cs =>
      c0.isAlpha && cs.all isSchemeChar &&
        (!specialScheme (c0 :: cs) || hostNonempty (s.drop (scheme.length + 1)))
  else false

/-- Link of config.rs: a relation identifier and an optional href. -/
structure Link where
  rel : Str
  href : Option Str
deriving DecidableEq

/-- WebFinger document of config.rs: subject, ordered links and a
property map modelled as an association list with unique keys. -/
structure WebFinger where
  subject : Str
  links : List Link
  properties : List (Str × Str)
deriving DecidableEq

/-- TenantConfig of config.rs: domain, per-user attribute maps (in
iteration order), global flag and optional openid fallback identity. -/
structure TenantConfig where
  domain : Str
  users : List (Str × List (Str × Str))
  global : Bool
  openid : Option Str
deriving DecidableEq

/-- TenantData of config.rs: domain, global flag and the compiled
subject-to-document map. -/
structure TenantData where
  domain : Str
  global : Bool
  fingers : List (Str × WebFinger)
deriving DecidableEq

/-- Lookup in an association list modelling `HashMap::get`. -/
def mapLookup (k : Str) : List (Str × α) → Option α
  | [] => none
  | (k2, v) :: rest => if k = k2 then some v else mapLookup k rest

/-- Insert into an association list modelling `HashMap::insert`: the
new binding replaces any existing binding of the same key. -/
def mapInsert (k : Str) (v : α) (m : List (Str × α)) : List (Str × α) :=
  (k, v) :: m.filter (fun p => decide (p.1 ≠ k))

/-- Alias resolution of config.rs line 166:
`urn_aliases.get(&key).cloned().unwrap_or(key)`. -/
def resolveAlias (aliases : List (Str × Str)) (k : Str) : Str :=
  (mapLookup k aliases).getD k

/-- One iteration of the classification loop of `create_webfinger`
(config.rs lines 164-177): resolve the key through the alias table,
then push a link if the value parses as a URL, else insert a
property. -/
def classifyStep (aliases : List (Str × Str))
    (acc : List Link × List (Str × Str)) (kv : Str × Str) :
    List Link × List (Str × Str) :=
  let urn := resolveAlias aliases kv.1
  if url_parse_ok kv.2 then (acc.1 ++ [⟨urn, some kv.2⟩], acc.2)
  else (acc.1, mapInsert urn kv.2 acc.2)

/-- The classification of one attribute pair as an optional link, used
to state how `create_webfinger` builds its link list. -/
def linkOf (aliases : List (Str × Str)) (kv : Str × Str) : Option Link :=
  if url_parse_ok kv.2 then some ⟨resolveAlias aliases kv.1, some kv.2⟩ else none

/-- `create_webfinger` of config.rs lines 156-184.  The Rust signature
returns a `Result` but every path returns `Ok`, so the model is total. -/
def create_webfinger (subject : Str) (user_data : List (Str × Str))
    (aliases : List (Str × Str)) : WebFinger :=
  let r := user_data.foldl (classifyStep aliases) ([], [])
  ⟨subject, r.1, r.2⟩

/-- The string `acct:`. -/
def acctColon : Str := str "acct:"

/-- The candidate of `normalize_subject` (config.rs lines 139-143):
the input with a single leading `acct:` stripped when present. -/
def stripAcct (user_id : Str) : Str :=
  if user_id.take 5 = acctColon then user_id.drop 5 else user_id

/-- `normalize_subject` of config.rs lines 138-154. -/
def normalize_subject (user_id : Str) : Except Str Str :=
  let subject := stripAcct user_id
  if email_regex_match subject then .ok (acctColon ++ subject)
  else if url_parse_ok subject then .ok subject
  else .error (str "Invalid subject format: " ++ user_id)

/-- The loop over `tenant_config.users` of `process_tenants`
(config.rs lines 106-110), with the fingers map built so far as
accumulator; the question-mark on `normalize_subject` makes the whole
loop fail on the first invalid identifier. -/
def processUsers (aliases : List (Str × Str)) :
    List (Str × List (Str × Str)) → List (Str × WebFinger) →
    Except Str (List (Str × WebFinger))
  | [], fingers => .ok fingers
  | (user_id, user_data) :: rest, fingers =>
    match normalize_subject user_id with
    | .error e => .error e
    | .ok subject =>
      processUsers aliases rest
        (mapInsert subject (create_webfinger subject user_data aliases) fingers)

/-- The wildcard subject `acct:*@<domain>` of config.rs line 116 and
main.rs line 62. -/
def wildcardSubject (domain : Str) : Str := str "acct:*@" ++ domain

/-- The per-tenant body of `process_tenants` (config.rs lines
102-127): compile every user, then, when the tenant is global and has
an openid fallback, add the wildcard document built from the
single-entry attribute map with key `openid`. -/
def process_tenant (aliases : List (Str × Str)) (tc : TenantConfig) :
    Except Str TenantData :=
  match processUsers aliases tc.users [] with
  | .error e => .error e
  | .ok fingers =>
    let fingers2 :=
      if tc.global then
        match tc.openid with
        | some openid =>
          mapInsert (wildcardSubject tc.domain)
            (create_webfinger (wildcardSubject tc.domain)
              [(str "openid", openid)] aliases) fingers
        | none => fingers
      else fingers
    .ok ⟨tc.domain, tc.global, fingers2⟩

/-- The loop of `process_tenants` over all tenants (config.rs lines
96-136), accumulating the tenant map; any per-tenant failure aborts
the whole compile, so no partially compiled map is ever returned. -/
def process_tenants_go (aliases : List (Str × Str)) :
    List (Str × TenantConfig) → List (Str × TenantData) →
    Except Str (List (Str × TenantData))
  | [], acc => .ok acc
  | (name, tc) :: rest, acc =>
    match process_tenant aliases tc with
    | .error e => .error e
    | .ok td => process_tenants_go aliases rest (mapInsert name td acc)

/-- `process_tenants` of config.rs lines 96-136. -/
def process_tenants (tenants : List (Str × TenantConfig))
    (aliases : List (Str × Str)) : Except Str (List (Str × TenantData)) :=
  process_tenants_go aliases tenants []

/-- `extract_domain_from_resource` of main.rs lines 76-83: for a
resource starting with `acct:`, the second piece of the remainder
split on at-signs, that is the segment strictly between the first
at-sign and the next one or the end; otherwise undefined. -/
def extract_domain_from_resource (resource : Str) : Option Str :=
  if resource.take 5 = acctColon then
    (splitOnChar '@' (resource.drop 5))[1]?
  else none

/-- The global-domain matching step of `webfinger_handler` (main.rs
lines 57-70): for a global tenant, when the resource's embedded
domain equals the requesting domain and the wildcard subject is
present, return the wildcard template with its subject replaced by
the requested resource. -/
def resolveWildcard (tenant : TenantData) (resource domain : Str) :
    Option WebFinger :=
  if tenant.global then
    match extract_domain_from_resource resource with
    | some resource_domain =>
      if resource_domain = domain then
        match mapLookup (wildcardSubject domain) tenant.fingers with
        | some finger => some { finger with subject := resource }
        | none => none
      else none
    | none => none
  else none

/-- The per-tenant part of `webfinger_handler` (main.rs lines 52-70):
the exact subject match first, then the wildcard step. -/
def resolveTenant (tenant : TenantData) (resource domain : Str) :
    Option WebFinger :=
  match mapLookup resource tenant.fingers with
  | some finger => some finger
  | none => resolveWildcard tenant resource domain

/-- The resolution core of `webfinger_handler` (main.rs lines 44-74):
find the first tenant whose domain equals the requesting domain, then
resolve against it; `none` models the NotFound response. -/
def resolve (tenants : List TenantData) (resource domain : Str) :
    Option WebFinger :=
  match tenants.find? (fun t => decide (t.domain = domain)) with
  | none => none
  | some tenant => resolveTenant tenant resource domain

/-- The fallback identity URL of the worked global-tenant example. -/
def openidUrlC1 : Str := str "https://idp.example/openid"

/-- A global tenant configuration with no explicit users and an openid
fallback identity. -/
def tcC1 : TenantConfig := ⟨str "example.com", [], true, some openidUrlC1⟩

/-- The compiled tenant obtained from `tcC1`: one wildcard document
whose openid attribute, being a URL, was classified as a link. -/
def tdC1 : TenantData :=
  ⟨str "example.com", true,
    [(wildcardSubject (str "example.com"),
      ⟨wildcardSubject (str "example.com"),
        [⟨str "openid", some openidUrlC1⟩], []⟩)]⟩

/-- An exact-match document used to exercise the resolver. -/
def docC4 : WebFinger :=
  ⟨str "acct:alice@example.com", [], [(str "name", str "Alice")]⟩

/-- A global compiled tenant holding both an exact document and a
wildcard document, to exercise exact-match priority. -/
def tdC4 : TenantData :=
  ⟨str "example.com", true,
    [(str "acct:alice@example.com", docC4),
     (wildcardSubject (str "example.com"),
      ⟨wildcardSubject (str "example.com"),
        [⟨str "openid", some (str "https://idp.example/o")⟩], []⟩)]⟩

/-- A wildcard template document with both a link and a property. -/
def tmplC5 : WebFinger :=
  ⟨wildcardSubject (str "w.test"),
    [⟨str "openid", some (str "https://op.test/a")⟩],
    [(str "color", str "blue")]⟩

/-- A global compiled tenant holding only the wildcard template. -/
def tdC5 : TenantData := ⟨str "w.test", true, [(wildcardSubject (str "w.test"), tmplC5)]⟩

/-- A tenant source whose single user identifier fails normalization. -/
def tenantsC7 : List (Str × TenantConfig) :=
  [(str "t1", ⟨str "bad.test", [(str "not-an-identifier", [])], false, none⟩)]

/-- An attribute map with two URL-valued attributes, in one iteration
order. -/
def attrsA : List (Str × Str) :=
  [(str "a", str "http://x.test/1"), (str "b", str "http://x.test/2")]

/-- The same attribute map as `attrsA`, in the other iteration order. -/
def attrsB : List (Str × Str) :=
  [(str "b", str "http://x.test/2"), (str "a", str "http://x.test/1")]

/-- The result of splitting is never the empty list of pieces. -/
theorem splitOnChar_ne_nil (sep : Char) (l : Str) : splitOnChar sep l ≠ [] := by
  cases l with
  | nil => simp [splitOnChar]
  | cons c cs =>
    simp only [splitOnChar]
    split
    · simp
    · split <;> simp_all

/-- The first piece of a split is the run of characters before the
first separator. -/
theorem splitOnChar_getZero (sep : Char) (l : Str) :
    (splitOnChar sep l)[0]? = some (l.takeWhile (fun c => decide (c ≠ sep))) := by
  induction l with
  | nil => simp [splitOnChar]
  | cons c cs ih =>
    simp only [splitOnChar, List.takeWhile_cons]
    by_cases h : c = sep
    · subst h; simp
    · simp only [if_neg h]
      rcases h2 : splitOnChar sep cs with _ | ⟨t, ts⟩
      · exact absurd h2 (splitOnChar_ne_nil sep cs)
      · rw [h2] at ih
        simp only [List.getElem?_cons_zero, Option.some.injEq] at ih
        simp [h, ih]

/-- Splitting a string without the separator yields that one piece. -/
theorem splitOnChar_no_sep (sep : Char) (l : Str) (h : sep ∉ l) :
    splitOnChar sep l = [l] := by
  induction l with
  | nil => simp [splitOnChar]
  | cons c cs ih =>
    simp only [List.mem_cons, not_or] at h
    have hc : ¬ (c = sep) := fun hh => h.1 hh.symm
    simp only [splitOnChar, if_neg hc, ih h.2]

/-- Splitting at the first separator occurrence peels off the piece
before it. -/
theorem splitOnChar_append_sep (sep : Char) (l rest : Str) (h : sep ∉ l) :
    splitOnChar sep (l ++ sep :: rest) = l :: splitOnChar sep rest := by
  induction l with
  | nil => simp [splitOnChar]
  | cons c cs ih =>
    simp only [List.mem_cons, not_or] at h
    have hc : ¬ (c = sep) := fun hh => h.1 hh.symm
    rw [List.cons_append]
    simp only [splitOnChar, if_neg hc, ih h.2]

/-- Taking five characters of an `acct:`-prefixed string gives the
prefix back. -/
theorem take_acct (l : Str) : (acctColon ++ l).take 5 = acctColon := by
  have h : acctColon.length = 5 := rfl
  rw [← h, List.take_left]

/-- Dropping five characters of an `acct:`-prefixed string gives the
remainder. -/
theorem drop_acct (l : Str) : (acctColon ++ l).drop 5 = l := by
  have h : acctColon.length = 5 := rfl
  rw [← h, List.drop_left]

/-- On an `acct:` resource whose remainder has an at-sign, the
extracted domain is the run between the first at-sign and the next
one or the end. -/
theorem extract_acct (l rest : Str) (h : '@' ∉ l) :
    extract_domain_from_resource (acctColon ++ (l ++ '@' :: rest)) =
      some (rest.takeWhile (fun c => decide (c ≠ '@'))) := by
  unfold extract_domain_from_resource
  rw [take_acct, if_pos rfl, drop_acct, splitOnChar_append_sep _ _ _ h]
  simp [splitOnChar_getZero]

/-- Looking up the key just inserted gives the inserted value. -/
theorem mapLookup_insert_self {α : Type} (k : Str) (v : α) (m : List (Str × α)) :
    mapLookup k (mapInsert k v m) = some v := by
  simp [mapLookup, mapInsert]

/-- Inserting preserves key uniqueness of the association list. -/
theorem mapInsert_keys_nodup {α : Type} (k : Str) (v : α) (m : List (Str × α))
    (h : (m.map Prod.fst).Nodup) : ((mapInsert k v m).map Prod.fst).Nodup := by
  simp only [mapInsert, List.map_cons, List.nodup_cons]
  constructor
  · intro hk
    simp only [List.mem_map] at hk
    obtain ⟨p, hp, hpk⟩ := hk
    have hfp := List.of_mem_filter hp
    simp [hpk] at hfp
  · exact h.sublist ((List.filter_sublist m).map Prod.fst)

/-- The link list built by the classification loop extends the
accumulator with the classified links of the remaining pairs, in
iteration order. -/
theorem classify_links (aliases : List (Str × Str)) (l : List (Str × Str)) :
    ∀ acc : List Link × List (Str × Str),
      (l.foldl (classifyStep aliases) acc).1 = acc.1 ++ l.filterMap (linkOf aliases) := by
  induction l with
  | nil => intro acc; simp
  | cons kv rest ih =>
    intro acc
    rw [List.foldl_cons, ih]
    by_cases h : url_parse_ok kv.2 = true
    · simp [classifyStep, linkOf, h]
    · simp [classifyStep, linkOf, h]

/-- The property map built by the classification loop is a fold of
overwrite-inserts of the non-URL pairs. -/
theorem classify_props (aliases : List (Str × Str)) (l : List (Str × Str)) :
    ∀ acc : List Link × List (Str × Str),
      (l.foldl (classifyStep aliases) acc).2 =
        l.foldl (fun ps kv => if url_parse_ok kv.2 then ps
          else mapInsert (resolveAlias aliases kv.1) kv.2 ps) acc.2 := by
  induction l with
  | nil => intro acc; simp
  | cons kv rest ih =>
    intro acc
    rw [List.foldl_cons, List.foldl_cons, ih]
    by_cases h : url_parse_ok kv.2 = true
    · simp [classifyStep, h]
    · simp [classifyStep, h]

/-- The classification loop keeps the property keys unique. -/
theorem classify_props_nodup (aliases : List (Str × Str)) (l : List (Str × Str)) :
    ∀ acc : List Link × List (Str × Str), (acc.2.map Prod.fst).Nodup →
      (((l.foldl (classifyStep aliases) acc).2).map Prod.fst).Nodup := by
  induction l with
  | nil => intro acc h; simpa using h
  | cons kv rest ih =>
    intro acc h
    rw [List.foldl_cons]
    apply ih
    by_cases hu : url_parse_ok kv.2 = true
    · simpa [classifyStep, hu] using h
    · simpa [classifyStep, hu] using mapInsert_keys_nodup _ _ _ h

/-- The links of a compiled document are the classified links of the
attribute pairs, in iteration order. -/
theorem create_webfinger_links_eq (subject : Str) (l aliases : List (Str × Str)) :
    (create_webfinger subject l aliases).links = l.filterMap (linkOf aliases) := by
  unfold create_webfinger
  simp [classify_links]

/-- Compiling a single URL-valued attribute yields one link and no
properties. -/
theorem create_webfinger_single (s k u : Str) (aliases : List (Str × Str))
    (hu : url_parse_ok u = true) :
    create_webfinger s [(k, u)] aliases =
      ⟨s, [⟨resolveAlias aliases k, some u⟩], []⟩ := by
  simp [create_webfinger, classifyStep, hu]

/-- If the user loop succeeded, every user identifier of the list
normalized successfully. -/
theorem processUsers_ok_normalize (aliases : List (Str × Str)) :
    ∀ (users : List (Str × List (Str × Str))) (acc fs : List (Str × WebFinger)),
      processUsers aliases users acc = .ok fs →
      ∀ uid data, (uid, data) ∈ users → ∃ s, normalize_subject uid = .ok s := by
  intro users
  induction users with
  | nil => intro acc fs h uid data hm; simp at hm
  | cons u rest ih =>
    intro acc fs h uid data hm
    obtain ⟨u1, u2⟩ := u
    simp only [processUsers] at h
    cases hn : normalize_subject u1 with
    | error e => rw [hn] at h; exact absurd h (by simp)
    | ok s =>
      rw [hn] at h
      rcases List.mem_cons.1 hm with heq | hmem
      · obtain ⟨h1, h2⟩ := Prod.mk.inj heq
        exact ⟨s, h1 ▸ hn⟩
      · exact ih _ _ h _ _ hmem

/-- If a tenant compiled successfully, every one of its user
identifiers normalized successfully. -/
theorem process_tenant_ok_normalize (aliases : List (Str × Str)) (tc : TenantConfig)
    (td : TenantData) (h : process_tenant aliases tc = .ok td) :
    ∀ uid data, (uid, data) ∈ tc.users → ∃ s, normalize_subject uid = .ok s := by
  unfold process_tenant at h
  cases hpu : processUsers aliases tc.users [] with
  | error e => rw [hpu] at h; exact absurd h (by simp)
  | ok fs =>
    exact fun uid data hm =>
      processUsers_ok_normalize aliases tc.users [] fs hpu uid data hm

/-- If the tenant loop succeeded, every tenant of the list compiled
successfully. -/
theorem process_tenants_go_ok (aliases : List (Str × Str)) :
    ∀ (ts : List (Str × TenantConfig)) (acc m : List (Str × TenantData)),
      process_tenants_go aliases ts acc = .ok m →
      ∀ name tc, (name, tc) ∈ ts → ∃ td, process_tenant aliases tc = .ok td := by
  intro ts
  induction ts with
  | nil => intro acc m h name tc hm; simp at hm
  | cons p rest ih =>
    intro acc m h name tc hm
    obtain ⟨p1, p2⟩ := p
    simp only [process_tenants_go] at h
    cases hpt : process_tenant aliases p2 with
    | error e => rw [hpt] at h; exact absurd h (by simp)
    | ok td =>
      rw [hpt] at h
      rcases List.mem_cons.1 hm with heq | hmem
      · obtain ⟨h1, h2⟩ := Prod.mk.inj heq
        exact ⟨td, h2 ▸ hpt⟩
      · exact ih _ _ h _ _ hmem

/-- A successfully compiled global tenant with a fallback identity
keeps the tenant's domain and global flag and maps the wildcard
subject to the document compiled from the single openid attribute. -/
theorem process_tenant_global_wildcard (aliases : List (Str × Str))
    (tc : TenantConfig) (td : TenantData) (u : Str)
    (hg : tc.global = true) (ho : tc.openid = some u)
    (h : process_tenant aliases tc = .ok td) :
    td.domain = tc.domain ∧ td.global = true ∧
      mapLookup (wildcardSubject tc.domain) td.fingers =
        some (create_webfinger (wildcardSubject tc.domain)
          [(str "openid", u)] aliases) := by
  unfold process_tenant at h
  cases hpu : processUsers aliases tc.users [] with
  | error e => rw [hpu] at h; exact absurd h (by simp)
  | ok fs =>
    rw [hpu, hg, ho] at h
    simp only [if_true] at h
    injection h with h2
    subst h2
    refine ⟨rfl, rfl, ?_⟩
    exact mapLookup_insert_self _ _ _

/-- Normalizing a canonical account subject, that is the `acct:`
prefix followed by an email-shaped candidate, returns it unchanged. -/
theorem normalize_subject_acct_email (c : Str) (hc : email_regex_match c = true) :
    normalize_subject (acctColon ++ c) = .ok (acctColon ++ c) := by
  unfold normalize_subject
  have hstrip : stripAcct (acctColon ++ c) = c := by
    unfold stripAcct
    rw [take_acct, if_pos rfl, drop_acct]
  rw [hstrip, if_pos hc]

/-- Normalizing a string unchanged by prefix stripping, failing the
email shape and parsing as a URL returns it unchanged. -/
theorem normalize_subject_bare (c : Str) (hc : stripAcct c = c)
    (he : email_regex_match c = false) (hu : url_parse_ok c = true) :
    normalize_subject c = .ok c := by
  unfold normalize_subject
  rw [hc]
  simp [he, hu]

/-- Taking while not equal to an absent character gives the whole
list. -/
theorem takeWhile_ne_eq_self (sep : Char) (l : Str) (h : sep ∉ l) :
    l.takeWhile (fun c => decide (c ≠ sep)) = l := by
  induction l with
  | nil => simp
  | cons c cs ih =>
    simp only [List.mem_cons, not_or] at h
    have hc : ¬ (c = sep) := fun hh => h.1 hh.symm
    simp only [List.takeWhile_cons, decide_eq_true_eq]
    rw [if_pos hc, ih h.2]

/-- C2: subject normalization strips a single leading `acct:` prefix
to obtain a candidate, returns `acct:` plus the candidate when the
candidate matches the email shape, returns the candidate unprefixed
when it instead parses as a URL, and otherwise fails with a
validation error carrying the original raw identifier. -/
theorem normalize_subject_cases (user_id : Str) :
    (email_regex_match (stripAcct user_id) = true →
      normalize_subject user_id = .ok (acctColon ++ stripAcct user_id)) ∧
    (email_regex_match (stripAcct user_id) = false →
      url_parse_ok (stripAcct user_id) = true →
      normalize_subject user_id = .ok (stripAcct user_id)) ∧
    (email_regex_match (stripAcct user_id) = false →
      url_parse_ok (stripAcct user_id) = false →
      normalize_subject user_id =
        .error (str "Invalid subject format: " ++ user_id)) := by
  unfold normalize_subject
  exact ⟨fun h => by simp [h], fun h1 h2 => by simp [h1, h2],
    fun h1 h2 => by simp [h1, h2]⟩

/-- Witness for C2 at the raw identifier alice at example.com. -/
theorem normalize_subject_cases_witness :
    normalize_subject (str "alice@example.com") =
      .ok (acctColon ++ stripAcct (str "alice@example.com")) :=
  (normalize_subject_cases (str "alice@example.com")).1 (by decide)

/-- C3: attribute classification resolves each key through the alias
table, emits links for URL-valued pairs in iteration order, keeps the
property keys unique, lets a later non-URL pair overwrite the
property at its resolved relation, and appends rather than
deduplicates links. -/
theorem create_webfinger_classification (subject : Str)
    (aliases : List (Str × Str)) (user_data : List (Str × Str)) :
    (create_webfinger subject user_data aliases).links =
      user_data.filterMap (linkOf aliases) ∧
    (((create_webfinger subject user_data aliases).properties).map Prod.fst).Nodup ∧
    (∀ k v : Str, url_parse_ok v = false →
      mapLookup (resolveAlias aliases k)
        ((create_webfinger subject (user_data ++ [(k, v)]) aliases).properties) =
        some v) ∧
    (∀ k v : Str, url_parse_ok v = true →
      (create_webfinger subject (user_data ++ [(k, v)]) aliases).links =
        (create_webfinger subject user_data aliases).links ++
          [⟨resolveAlias aliases k, some v⟩]) := by
  refine ⟨create_webfinger_links_eq _ _ _, ?_, ?_, ?_⟩
  · exact classify_props_nodup aliases user_data ([], []) (by simp)
  · intro k v hv
    show mapLookup (resolveAlias aliases k)
      ((user_data ++ [(k, v)]).foldl (classifyStep aliases) ([], [])).2 = some v
    rw [List.foldl_append]
    simp [classifyStep, hv, mapLookup_insert_self]
  · intro k v hv
    rw [create_webfinger_links_eq, create_webfinger_links_eq, List.filterMap_append]
    simp [linkOf, hv]

/-- Witness for C3: a non-URL value lands in the properties under its
resolved relation. -/
theorem create_webfinger_classification_witness :
    mapLookup (resolveAlias [] (str "name"))
      ((create_webfinger (str "acct:w@e.co")
        ([] ++ [(str "name", str "Alice")]) []).properties) =
      some (str "Alice") :=
  (create_webfinger_classification (str "acct:w@e.co") [] []).2.2.1
    (str "name") (str "Alice") (by decide)

/-- C4: an exact entry of the matched tenant's subject map is
returned unchanged, before the wildcard path is even considered. -/
theorem resolve_exact_match_priority (tenants : List TenantData)
    (resource domain : Str) (t : TenantData) (doc : WebFinger)
    (hfind : tenants.find? (fun x => decide (x.domain = domain)) = some t)
    (hdoc : mapLookup resource t.fingers = some doc) :
    resolve tenants resource domain = some doc := by
  unfold resolve
  rw [hfind]
  simp only [resolveTenant, hdoc]

/-- Witness for C4 on a global tenant holding both the exact document
and a wildcard document. -/
theorem resolve_exact_match_priority_witness :
    resolve [tdC4] (str "acct:alice@example.com") (str "example.com") =
      some docC4 :=
  resolve_exact_match_priority [tdC4] (str "acct:alice@example.com")
    (str "example.com") tdC4 docC4 (by decide) (by decide)

/-- C5: a wildcard answer is the stored template with only the
subject replaced by the requested resource; links and properties are
exactly those of the template, and the stored index, a pure value, is
untouched by resolution. -/
theorem resolve_wildcard_personalization (tenants : List TenantData)
    (resource domain : Str) (t : TenantData) (tmpl : WebFinger)
    (hfind : tenants.find? (fun x => decide (x.domain = domain)) = some t)
    (hnone : mapLookup resource t.fingers = none)
    (hg : t.global = true)
    (hext : extract_domain_from_resource resource = some domain)
    (hwild : mapLookup (wildcardSubject domain) t.fingers = some tmpl) :
    resolve tenants resource domain = some ⟨resource, tmpl.links, tmpl.properties⟩ := by
  unfold resolve
  rw [hfind]
  simp [resolveTenant, resolveWildcard, hnone, hg, hext, hwild]

/-- Witness for C5 on a template holding one link and one property. -/
theorem resolve_wildcard_personalization_witness :
    resolve [tdC5] (str "acct:carol@w.test") (str "w.test") =
      some ⟨str "acct:carol@w.test", tmplC5.links, tmplC5.properties⟩ :=
  resolve_wildcard_personalization [tdC5] (str "acct:carol@w.test")
    (str "w.test") tdC5 tmplC5 (by decide) (by decide) rfl (by decide) (by decide)

/-- C10: the embedded domain is defined only for resources starting
with `acct:` whose remainder has an at-sign, it is the segment
strictly between the first at-sign and the next one or the end -
so acct:a(at)b(at)example.com yields b - and a resource without an
embedded domain can never take the wildcard path. -/
theorem extract_domain_spec :
    (∀ l rest : Str, '@' ∉ l →
      extract_domain_from_resource (acctColon ++ (l ++ '@' :: rest)) =
        some (rest.takeWhile (fun c => decide (c ≠ '@')))) ∧
    (∀ r : Str, ¬ r.take 5 = acctColon → extract_domain_from_resource r = none) ∧
    (∀ r : Str, '@' ∉ r.drop 5 → extract_domain_from_resource r = none) ∧
    extract_domain_from_resource (str "acct:a@b@example.com") = some (str "b") ∧
    (∀ (tenants : List TenantData) (resource domain : Str) (t : TenantData),
      tenants.find? (fun x => decide (x.domain = domain)) = some t →
      mapLookup resource t.fingers = none →
      extract_domain_from_resource resource = none →
      resolve tenants resource domain = none) := by
  refine ⟨extract_acct, ?_, ?_, by decide, ?_⟩
  · intro r h
    unfold extract_domain_from_resource
    rw [if_neg h]
  · intro r h
    unfold extract_domain_from_resource
    by_cases ht : r.take 5 = acctColon
    · rw [if_pos ht, splitOnChar_no_sep _ _ h]
      rfl
    · rw [if_neg ht]
  · intro tenants resource domain t hfind hnone hext
    unfold resolve
    rw [hfind]
    by_cases hg : t.global = true
    · simp [resolveTenant, resolveWildcard, hnone, hext, hg]
    · simp [resolveTenant, resolveWildcard, hnone, hg]

/-- Witness for C10 on the resource acct:x(at)y. -/
theorem extract_domain_spec_witness :
    extract_domain_from_resource (acctColon ++ (str "x" ++ '@' :: str "y")) =
      some ((str "y").takeWhile (fun c => decide (c ≠ '@'))) :=
  extract_domain_spec.1 (str "x") (str "y") (by decide)

/-- A string not starting with the `acct:` prefix is unchanged by
prefix stripping. -/
theorem stripAcct_eq_self (l : Str) (h : ¬ l.take 5 = acctColon) :
    stripAcct l = l := by
  unfold stripAcct
  rw [if_neg h]

/-- C1 is false as stated: compiling the global tenant on
example.com with fallback identity the URL of `openidUrlC1` and
resolving the undefined resource acct:bob(at)example.com does return
a document whose subject echoes the resource, but the fallback
identity, being a syntactically valid URL, was classified as a link,
so the properties mapping is empty and has no openid entry. -/
theorem global_fallback_not_property_cex :
    process_tenant [] tcC1 = .ok tdC1 ∧
    resolve [tdC1] (str "acct:bob@example.com") (str "example.com") =
      some ⟨str "acct:bob@example.com", [⟨str "openid", some openidUrlC1⟩], []⟩ ∧
    (resolve [tdC1] (str "acct:bob@example.com") (str "example.com")).map
      (fun d : WebFinger => mapLookup (str "openid") d.properties) = some none :=
  ⟨rfl, rfl, rfl⟩

/-- C1 (amended): for a global tenant whose fallback identity is a
syntactically valid URL, resolving a well-formed account resource of
the tenant's domain with no exact entry returns a document whose
subject equals the requested resource and whose links contain the
single entry relating the alias-resolved key openid to the fallback
URL; the properties mapping is empty, because a URL-valued attribute
is classified as a link, not a property. -/
theorem resolve_global_fallback_openid_link
    (aliases : List (Str × Str)) (tc : TenantConfig) (td : TenantData)
    (u localPart resource : Str)
    (hg : tc.global = true) (ho : tc.openid = some u)
    (hu : url_parse_ok u = true)
    (hpt : process_tenant aliases tc = .ok td)
    (hres : resource = acctColon ++ (localPart ++ '@' :: tc.domain))
    (hl : '@' ∉ localPart) (hd : '@' ∉ tc.domain)
    (hnone : mapLookup resource td.fingers = none) :
    resolve [td] resource tc.domain =
      some ⟨resource, [⟨resolveAlias aliases (str "openid"), some u⟩], []⟩ := by
  obtain ⟨hdom, hgl, hwild⟩ :=
    process_tenant_global_wildcard aliases tc td u hg ho hpt
  have hext : extract_domain_from_resource resource = some tc.domain := by
    rw [hres, extract_acct _ _ hl, takeWhile_ne_eq_self _ _ hd]
  have hfind : [td].find? (fun x => decide (x.domain = tc.domain)) = some td := by
    simp [List.find?, hdom]
  unfold resolve
  rw [hfind]
  simp [resolveTenant, resolveWildcard, hnone, hgl, hext, hwild,
    create_webfinger_single _ _ _ _ hu]

/-- Witness for C1 (amended) at the tenant `tcC1` and the resource
acct:bob(at)example.com. -/
theorem resolve_global_fallback_openid_link_witness :
    resolve [tdC1] (acctColon ++ (str "bob" ++ '@' :: tcC1.domain)) tcC1.domain =
      some ⟨acctColon ++ (str "bob" ++ '@' :: tcC1.domain),
        [⟨resolveAlias [] (str "openid"), some openidUrlC1⟩], []⟩ :=
  resolve_global_fallback_openid_link [] tcC1 tdC1 openidUrlC1 (str "bob")
    (acctColon ++ (str "bob" ++ '@' :: tcC1.domain))
    rfl rfl (by decide) rfl rfl (by decide) (by decide) (by decide)

/-- The wildcard step answers nothing exactly when the tenant is not
global, or the resource has no embedded domain, or the embedded
domain differs from the requesting domain, or no wildcard entry
exists. -/
theorem resolveWildcard_none_iff (t : TenantData) (resource domain : Str) :
    resolveWildcard t resource domain = none ↔
      (t.global = false ∨
       extract_domain_from_resource resource = none ∨
       (∃ rd, extract_domain_from_resource resource = some rd ∧ rd ≠ domain) ∨
       mapLookup (wildcardSubject domain) t.fingers = none) := by
  by_cases hg : t.global = true
  · cases hext : extract_domain_from_resource resource with
    | none => simp [resolveWildcard, hg, hext]
    | some rd =>
      by_cases hrd : rd = domain
      · subst hrd
        cases hwild : mapLookup (wildcardSubject rd) t.fingers with
        | none => simp [resolveWildcard, hg, hext, hwild]
        | some fw => simp [resolveWildcard, hg, hext, hwild]
      · simp [resolveWildcard, hg, hext, hrd]
  · have hgf : t.global = false := by simpa using hg
    simp [resolveWildcard, hgf]

/-- A tenant answers nothing exactly when it has no exact entry for
the resource and the wildcard step answers nothing. -/
theorem resolveTenant_none_iff (t : TenantData) (resource domain : Str) :
    resolveTenant t resource domain = none ↔
      (mapLookup resource t.fingers = none ∧
       (t.global = false ∨
        extract_domain_from_resource resource = none ∨
        (∃ rd, extract_domain_from_resource resource = some rd ∧ rd ≠ domain) ∨
        mapLookup (wildcardSubject domain) t.fingers = none)) := by
  cases hlook : mapLookup resource t.fingers with
  | some doc => simp [resolveTenant, hlook]
  | none => simp [resolveTenant, hlook, resolveWildcard_none_iff]

/-- C6: resolution answers NotFound exactly when no tenant's domain
equals the requesting domain, or the first matching tenant has no
exact entry for the resource and the wildcard path does not apply:
the tenant is not global, or the resource has no embedded account
domain, or the embedded domain differs from the requesting domain, or
no wildcard entry exists. -/
theorem resolve_notfound_iff (tenants : List TenantData) (resource domain : Str) :
    resolve tenants resource domain = none ↔
      ((∀ t ∈ tenants, t.domain ≠ domain) ∨
       (∃ t, tenants.find? (fun x => decide (x.domain = domain)) = some t ∧
         mapLookup resource t.fingers = none ∧
         (t.global = false ∨
          extract_domain_from_resource resource = none ∨
          (∃ rd, extract_domain_from_resource resource = some rd ∧ rd ≠ domain) ∨
          mapLookup (wildcardSubject domain) t.fingers = none))) := by
  unfold resolve
  cases hfind : tenants.find? (fun x => decide (x.domain = domain)) with
  | none =>
    constructor
    · intro _
      left
      intro t ht
      have h2 := List.find?_eq_none.1 hfind t ht
      simpa using h2
    · intro _
      rfl
  | some t =>
    have hmem : t ∈ tenants := List.mem_of_find?_eq_some hfind
    have hdom : t.domain = domain := by simpa using List.find?_some hfind
    show resolveTenant t resource domain = none ↔ _
    rw [resolveTenant_none_iff]
    constructor
    · rintro ⟨h1, h2⟩
      right
      exact ⟨t, rfl, h1, h2⟩
    · rintro (hall | ⟨t2, ht2, h1, h2⟩)
      · exact absurd hdom (hall t hmem)
      · injection ht2 with ht2e
        subst ht2e
        exact ⟨h1, h2⟩

/-- Witness for C6: an empty tenant index answers NotFound. -/
theorem resolve_notfound_iff_witness :
    resolve [] (str "acct:a@b.co") (str "b.co") = none :=
  (resolve_notfound_iff [] (str "acct:a@b.co") (str "b.co")).mpr
    (Or.inl (by simp))

/-- C7: if any user identifier of any tenant fails normalization, the
whole tenant compile fails with a validation error, so no tenant
index is produced at all; the `Except` result makes the
all-or-nothing semantics explicit. -/
theorem process_tenants_failfast (aliases : List (Str × Str))
    (tenants : List (Str × TenantConfig)) (name : Str) (tc : TenantConfig)
    (uid : Str) (data : List (Str × Str)) (e : Str)
    (hmem : (name, tc) ∈ tenants) (hu : (uid, data) ∈ tc.users)
    (hn : normalize_subject uid = .error e) :
    ∃ e2, process_tenants tenants aliases = .error e2 := by
  cases h : process_tenants tenants aliases with
  | error e2 => exact ⟨e2, rfl⟩
  | ok m =>
    exfalso
    unfold process_tenants at h
    obtain ⟨td, htd⟩ := process_tenants_go_ok aliases tenants [] m h name tc hmem
    obtain ⟨s, hs⟩ := process_tenant_ok_normalize aliases tc td htd uid data hu
    rw [hn] at hs
    exact Except.noConfusion hs

/-- Witness for C7 on a tenant source with the invalid identifier
not-an-identifier. -/
theorem process_tenants_failfast_witness :
    ∃ e2, process_tenants tenantsC7 [] = .error e2 :=
  process_tenants_failfast [] tenantsC7 (str "t1")
    ⟨str "bad.test", [(str "not-an-identifier", [])], false, none⟩
    (str "not-an-identifier") []
    (str "Invalid subject format: not-an-identifier")
    (by decide) (by decide) rfl

/-- C8 is false as stated: the links order is the iteration order of
the source map, which for a Rust HashMap is not insertion order; the
two association lists below are the same attribute map - equal as
key-value sets with distinct keys - yet compile to different link
sequences. -/
theorem links_order_hashmap_cex :
    attrsA.Perm attrsB ∧ (attrsA.map Prod.fst).Nodup ∧
    (create_webfinger (str "s") attrsA []).links ≠
      (create_webfinger (str "s") attrsB []).links := by
  refine ⟨?_, by decide, by decide⟩
  unfold attrsA attrsB
  exact List.Perm.swap _ _ _

/-- C8 (amended): the links sequence is the image, in the source
map's iteration order, of the classified pairs, so compiling the same
iteration sequence twice yields identical link sequences, and
attribute maps equal as key-value sets yield the same links up to
permutation - but not necessarily in the same order, since a Rust
HashMap's iteration order need not be insertion order. -/
theorem create_webfinger_links_order (subject : Str)
    (aliases : List (Str × Str)) :
    (∀ user_data : List (Str × Str),
      (create_webfinger subject user_data aliases).links =
        user_data.filterMap (linkOf aliases)) ∧
    (∀ l1 l2 : List (Str × Str), l1.Perm l2 →
      ((create_webfinger subject l1 aliases).links).Perm
        ((create_webfinger subject l2 aliases).links)) := by
  constructor
  · exact fun l => create_webfinger_links_eq subject l aliases
  · intro l1 l2 h
    rw [create_webfinger_links_eq, create_webfinger_links_eq]
    exact h.filterMap _

/-- Witness for C8 (amended) on the two iteration orders of the same
attribute map. -/
theorem create_webfinger_links_order_witness :
    ((create_webfinger (str "s") attrsA []).links).Perm
      ((create_webfinger (str "s") attrsB []).links) :=
  (create_webfinger_links_order (str "s") []).2 attrsA attrsB
    (by unfold attrsA attrsB; exact List.Perm.swap _ _ _)

/-- C9 is false as stated: acct:foo is a successful output of
normalization - from the raw identifier acct:acct:foo, whose
candidate acct:foo parses as a URL with the scheme acct - yet
normalizing it again strips the prefix and fails on the bare foo. -/
theorem normalize_subject_not_idempotent_cex :
    normalize_subject (str "acct:acct:foo") = .ok (str "acct:foo") ∧
    normalize_subject (str "acct:foo") =
      .error (str "Invalid subject format: acct:foo") :=
  ⟨rfl, rfl⟩

/-- C9 (amended): normalization is idempotent on every successful
output that either does not begin with the `acct:` prefix or whose
remainder after that prefix matches the email shape; outputs
beginning with `acct:` whose remainder is not email-shaped, reachable
only from candidates that are URLs of scheme acct, re-normalize to a
different subject or fail. -/
theorem normalize_subject_idempotent_on_canonical (raw s : Str)
    (h : normalize_subject raw = .ok s)
    (hcanon : s.take 5 = acctColon → email_regex_match (s.drop 5) = true) :
    normalize_subject s = .ok s := by
  by_cases htake : s.take 5 = acctColon
  · have hs : s = acctColon ++ s.drop 5 := by
      conv_lhs => rw [← List.take_append_drop 5 s]
      rw [htake]
    have h2 := normalize_subject_acct_email (s.drop 5) (hcanon htake)
    rw [← hs] at h2
    exact h2
  · simp only [normalize_subject] at h
    by_cases hemail : email_regex_match (stripAcct raw) = true
    · rw [if_pos hemail] at h
      injection h with h2
      exact absurd (h2 ▸ take_acct (stripAcct raw)) htake
    · rw [if_neg hemail] at h
      by_cases hurl : url_parse_ok (stripAcct raw) = true
      · rw [if_pos hurl] at h
        injection h with h2
        subst h2
        refine normalize_subject_bare _ (stripAcct_eq_self _ htake) ?_ hurl
        cases hb : email_regex_match (stripAcct raw) with
        | true => exact absurd hb hemail
        | false => rfl
      · rw [if_neg hurl] at h
        exact absurd h (by simp)

/-- Witness for C9 (amended) at the canonical account subject
acct:alice(at)example.com. -/
theorem normalize_subject_idempotent_on_canonical_witness :
    normalize_subject (str "acct:alice@example.com") =
      .ok (str "acct:alice@example.com") :=
  normalize_subject_idempotent_on_canonical (str "alice@example.com")
    (str "acct:alice@example.com") rfl (by decide)

end RustFinger
